import Mathlib

/-
Shallow embedding of the Kaleidoscope front end (lexer + recursive-descent
parser) from src/kaleidoscope/parser.cpp, together with theorems checking
the natural-language specification against it.

Modelling conventions:
* The character source (getchar) becomes an explicit `List Char` plus the
  one buffered look-ahead character `last_char`, modelled as `Option Char`
  where `none` stands for EOF.
* The C `double NumVal` is modelled by the accumulated literal string
  itself (the code produces it with `strtod(numstr)`); no claim depends on
  the floating-point value, only on which literal was lexed.
* The global parser state (CurTok, IdentStr, NumVal, buffered character)
  becomes the explicit record `PState`; since the parser interacts with the
  character stream only through `get_next_token`, the stream is pre-lexed
  into a `List Token` and `get_next_token` pops the next token, updating
  IdentStr / NumVal exactly when `gettok` would (it assigns them only in
  the identifier and number branches).
* Owning null pointers (`unique_ptr` that may be null) become `Option`;
  every parsing function returns the pair (result, state after).
* The mutually recursive parsing functions take an explicit fuel argument;
  fuel `0` returns the failure sentinel.  All theorems supply enough fuel,
  so the fuel pattern never changes which answer is produced.
-/

/- Character classification, ASCII / C default locale (isspace, isalpha,
isdigit, isalnum from ctype.h as used by the lexer). -/

def isspace (c : Char) : Bool :=
  c == ' ' || c == '\t' || c == '\n' || c == '\x0b' || c == '\x0c' || c == '\r'

def isalpha (c : Char) : Bool :=
  (65 ≤ c.toNat && c.toNat ≤ 90) || (97 ≤ c.toNat && c.toNat ≤ 122)

def isdigit (c : Char) : Bool :=
  48 ≤ c.toNat && c.toNat ≤ 57

def isalnum (c : Char) : Bool :=
  isalpha c || isdigit c

/- Reading one character from the stream: `getchar` returns the next
character, or EOF (`none`) when the stream is exhausted. -/
def getchar : List Char → Option Char × List Char
| [] => (none, [])
| c :: rest => (some c, rest)

/- Tokens: enum Token in the source, with the payloads that the C code
keeps in the globals IdentStr / NumVal attached to the constructors.
`tok_ext` is the keyword token for the second reserved word (tok number -3
in the source); `sym c` is the fall-through case returning the raw
character. -/
inductive Token where
| tok_eof
| tok_def
| tok_ext
| tok_ident (s : String)
| tok_num (v : String)
| sym (c : Char)
deriving DecidableEq, Repr

/- The whitespace-skipping loop at the top of gettok:
while (isspace(last_char)) last_char = getchar(); -/
def skipSpaces : Option Char → List Char → Option Char × List Char
| some c, d :: rest => if isspace c then skipSpaces (some d) rest else (some c, d :: rest)
| some c, [] => if isspace c then (none, []) else (some c, [])
| none, input => (none, input)

/- The identifier accumulation loop:
while (isalnum(last_char = getchar())) IdentStr += last_char; -/
def lexIdent : List Char → List Char → List Char × Option Char × List Char
| acc, [] => (acc, none, [])
| acc, c :: rest => if isalnum c then lexIdent (acc ++ [c]) rest else (acc, some c, rest)

/- The number accumulation loop:
while (isdigit(last_char) or last_char == the dot) numstr += last_char; -/
def lexNum : List Char → List Char → List Char × Option Char × List Char
| acc, [] => (acc, none, [])
| acc, c :: rest => if isdigit c || c == '.' then lexNum (acc ++ [c]) rest else (acc, some c, rest)

/- Keyword classification of a completed identifier string. -/
def classify_ident (s : String) : Token :=
  if s = "def" then Token.tok_def
  else if s = "extern" then Token.tok_ext
  else Token.tok_ident s

/- One call of gettok: takes the buffered look-ahead character and the
remaining stream, returns the token plus the new buffered character and
stream.  Mirrors the branch order of the source: skip spaces, identifier,
number, EOF, raw character. -/
def gettok (lc : Option Char) (input : List Char) : Token × Option Char × List Char :=
  match skipSpaces lc input with
  | (none, rest) => (Token.tok_eof, none, rest)
  | (some c, rest) =>
    if isalpha c then
      let r := lexIdent [c] rest
      (classify_ident (String.mk r.1), r.2.1, r.2.2)
    else if isdigit c || c == '.' then
      let r := lexNum [c] rest
      (Token.tok_num (String.mk r.1), r.2.1, r.2.2)
    else
      (Token.sym c, (getchar rest).1, (getchar rest).2)

/- Repeated calls of gettok until the EOF token, as the driver performs
them; fuel bounds the number of calls. -/
def tokens : Nat → Option Char → List Char → List Token
| 0, _, _ => []
| fuel + 1, lc, input =>
  match gettok lc input with
  | (Token.tok_eof, _, _) => [Token.tok_eof]
  | (t, lc2, rest) => t :: tokens fuel lc2 rest

/- Lex a whole string, starting from the initial buffered character
(static char last_char = a space).  The fuel is sufficient because every
token other than EOF consumes at least one unit of the measure
2*|input|+1. -/
def tokenize (str : String) : List Token :=
  tokens (2 * str.data.length + 2) (some ' ') str.data

/- bool is_op(char op) from the source. -/
def is_op (op : Char) : Bool :=
  op == '+' || op == '-' || op == '*'

/- AST: the class hierarchy of the source as a sum type.  FuncPrototype
stores a list of expressions for its arguments, exactly as the source
field std::vector of owned Expr does (not a list of names). -/
mutual

inductive Expr where
| NumExpr : String → Expr
| VarExpr : String → Expr
| BinaryExpr : Char → Expr → Expr → Expr
| CallExpr : String → List Expr → Expr
| FunctionExpr : FuncPrototype → Expr → Expr

inductive FuncPrototype where
| mk : String → List Expr → FuncPrototype

end

/- Parser state: CurTok plus the payload globals IdentStr and NumVal (the
latter as the lexed literal string), plus the not-yet-pulled tokens. -/
structure PState where
  curTok : Token
  identStr : String
  numStr : String
  rest : List Token
deriving Repr

/- Pull one token: the new CurTok is the head of the remaining stream (the
lexer keeps producing tok_eof once the stream is exhausted), and IdentStr
/ NumVal are overwritten exactly when the lexer produced an identifier or
number token. -/
def mkSt : List Token → String → String → PState
| [], is, ns => ⟨Token.tok_eof, is, ns, []⟩
| t :: ts, is, ns =>
  ⟨t,
   (match t with | Token.tok_ident n => n | _ => is),
   (match t with | Token.tok_num v => v | _ => ns),
   ts⟩

/- static int get_next_token() from the source. -/
def get_next_token (s : PState) : PState :=
  mkSt s.rest s.identStr s.numStr

/- State at the start of a parse: the driver has already pulled the first
token of the stream. -/
def mkInit (ts : List Token) : PState :=
  mkSt ts "" ""

/- In parse_binop_rhs the source writes int op = CurTok and calls
is_op(op) through the int-to-char conversion; the negative token codes of
the non-symbol tokens are never one of the three operator characters, so
only a sym token can be an operator. -/
def isOpTok : Token → Bool
| Token.sym c => is_op c
| _ => false

/- Payload of an operator token (only applied when isOpTok holds). -/
def opChar : Token → Char
| Token.sym c => c
| _ => ' '

/- static std::unique_ptr of NumExpr parse_number(): builds
NumExpr(NumVal), eats the number token, never fails. -/
def parse_number (s : PState) : Option Expr × PState :=
  (some (Expr.NumExpr s.numStr), get_next_token s)

mutual

/- static std::unique_ptr of Expr parse_ident(): variable reference or
call.  Note that when the token after the opening paren is the closing
paren the source skips the whole argument block, so that closing paren is
not eaten in the empty-argument case. -/
def parse_ident : Nat → PState → Option Expr × PState
| 0, s => (none, s)
| fuel + 1, s =>
  let name := s.identStr
  let s1 := get_next_token s
  if s1.curTok ≠ Token.sym '(' then
    (some (Expr.VarExpr name), s1)
  else
    let s2 := get_next_token s1
    if s2.curTok = Token.sym ')' then
      (some (Expr.CallExpr name []), s2)
    else
      parse_ident_args fuel name [] s2

/- The while loop of the argument list inside parse_ident, with the
get_next_token that eats the closing paren after the break. -/
def parse_ident_args : Nat → String → List Expr → PState → Option Expr × PState
| 0, _, _, s => (none, s)
| fuel + 1, name, args, s =>
  match parse_expr fuel s with
  | (some arg, s1) =>
    let args2 := args ++ [arg]
    if s1.curTok = Token.sym ')' then
      (some (Expr.CallExpr name args2), get_next_token s1)
    else if s1.curTok ≠ Token.sym ',' then
      (none, s1)
    else
      parse_ident_args fuel name args2 (get_next_token s1)
  | (none, s1) => (none, s1)

/- static std::unique_ptr of Expr parse_primary(). -/
def parse_primary : Nat → PState → Option Expr × PState
| 0, s => (none, s)
| fuel + 1, s =>
  match s.curTok with
  | Token.tok_ident _ => parse_ident fuel s
  | Token.tok_num _ => parse_number s
  | _ => (none, s)

/- static std::unique_ptr of Expr parse_binop_rhs(lhs): the flat
left-associative operator loop. -/
def parse_binop_rhs : Nat → Expr → PState → Option Expr × PState
| 0, _, s => (none, s)
| fuel + 1, cur, s =>
  if isOpTok s.curTok = false then
    (some cur, s)
  else
    let op := opChar s.curTok
    let s1 := get_next_token s
    match parse_primary fuel s1 with
    | (none, s2) => (none, s2)
    | (some rhs, s2) => parse_binop_rhs fuel (Expr.BinaryExpr op cur rhs) s2

/- static std::unique_ptr of Expr parse_expr(). -/
def parse_expr : Nat → PState → Option Expr × PState
| 0, s => (none, s)
| fuel + 1, s =>
  match parse_primary fuel s with
  | (none, s1) => (none, s1)
  | (some lhs, s1) => parse_binop_rhs fuel lhs s1

end

/- The while loop of the parameter list inside parse_prototype; the
parameters are parsed with parse_ident, exactly as the source does. -/
def parse_proto_args : Nat → String → List Expr → PState → Option FuncPrototype × PState
| 0, _, _, s => (none, s)
| fuel + 1, name, argnames, s =>
  match parse_ident fuel s with
  | (some aname, s1) =>
    let argnames2 := argnames ++ [aname]
    if s1.curTok = Token.sym ')' then
      (some (FuncPrototype.mk name argnames2), get_next_token s1)
    else if s1.curTok ≠ Token.sym ',' then
      (none, s1)
    else
      parse_proto_args fuel name argnames2 (get_next_token s1)
  | (none, s1) => (none, s1)

/- static std::unique_ptr of FuncPrototype parse_prototype().  As in
parse_ident, when the token after the opening paren is already the
closing paren the argument block is skipped and that closing paren is not
eaten. -/
def parse_prototype : Nat → PState → Option FuncPrototype × PState
| 0, s => (none, s)
| fuel + 1, s =>
  match s.curTok with
  | Token.tok_ident _ =>
    let name := s.identStr
    let s1 := get_next_token s
    if s1.curTok ≠ Token.sym '(' then
      (none, s1)
    else
      let s2 := get_next_token s1
      if s2.curTok = Token.sym ')' then
        (some (FuncPrototype.mk name []), s2)
      else
        parse_proto_args fuel name [] s2
  | _ => (none, s)

/- static std::unique_ptr of Expr parse_definition(): eat the def
keyword, parse a prototype, then the body expression. -/
def parse_definition : Nat → PState → Option Expr × PState
| 0, s => (none, s)
| fuel + 1, s =>
  let s1 := get_next_token s
  match parse_prototype fuel s1 with
  | (none, s2) => (none, s2)
  | (some proto, s2) =>
    match parse_expr fuel s2 with
    | (none, s3) => (none, s3)
    | (some body, s3) => (some (Expr.FunctionExpr proto body), s3)

/- A parenthesis-free primary: a number literal or a variable reference
(the only primaries whose source text contains no parenthesis). -/
inductive Prim where
| pnum (v : String)
| pvar (s : String)
deriving DecidableEq, Repr

/- The token a parenthesis-free primary lexes to. -/
def Prim.tok : Prim → Token
| Prim.pnum v => Token.tok_num v
| Prim.pvar s => Token.tok_ident s

/- The AST node a parenthesis-free primary parses to. -/
def Prim.expr : Prim → Expr
| Prim.pnum v => Expr.NumExpr v
| Prim.pvar s => Expr.VarExpr s

/- IdentStr after parsing the primary. -/
def primIs : Prim → String → String
| Prim.pnum _, is => is
| Prim.pvar s, _ => s

/- NumVal after parsing the primary. -/
def primNs : Prim → String → String
| Prim.pnum v, _ => v
| Prim.pvar _, ns => ns

/- Token stream of a chain of (operator, primary) continuations. -/
def opsToks : List (Char × Prim) → List Token
| [] => []
| (o, p) :: rest => Token.sym o :: p.tok :: opsToks rest

/- The strictly left-associative, precedence-flat tree over a chain:
((e op1 p1) op2 p2) ... -/
def leftAssocTree : Expr → List (Char × Prim) → Expr
| e, [] => e
| e, (o, p) :: rest => leftAssocTree (Expr.BinaryExpr o e p.expr) rest

/- One complete run of the whitespace-skipping loop. -/
inductive SkipR : Option Char → List Char → Option Char → List Char → Prop where
| stop (c : Char) (input : List Char) :
    isspace c = false → SkipR (some c) input (some c) input
| atEof (input : List Char) : SkipR none input none input
| stepCons (c d : Char) (rest : List Char) (lc : Option Char) (out : List Char) :
    isspace c = true → SkipR (some d) rest lc out → SkipR (some c) (d :: rest) lc out
| stepNil (c : Char) : isspace c = true → SkipR (some c) [] none []

/- One complete run of the identifier accumulation loop. -/
inductive IdentAccR : List Char → List Char → List Char → Option Char → List Char → Prop where
| atEof (acc : List Char) : IdentAccR acc [] acc none []
| more (acc : List Char) (c : Char) (rest fin : List Char) (res : List Char) (lc : Option Char) :
    isalnum c = true → IdentAccR (acc ++ [c]) rest res lc fin →
    IdentAccR acc (c :: rest) res lc fin
| stop (acc : List Char) (c : Char) (rest : List Char) :
    isalnum c = false → IdentAccR acc (c :: rest) acc (some c) rest

/- One complete run of the number accumulation loop. -/
inductive NumAccR : List Char → List Char → List Char → Option Char → List Char → Prop where
| atEof (acc : List Char) : NumAccR acc [] acc none []
| more (acc : List Char) (c : Char) (rest fin : List Char) (res : List Char) (lc : Option Char) :
    (isdigit c || c == '.') = true → NumAccR (acc ++ [c]) rest res lc fin →
    NumAccR acc (c :: rest) res lc fin
| stop (acc : List Char) (c : Char) (rest : List Char) :
    (isdigit c || c == '.') = false → NumAccR acc (c :: rest) acc (some c) rest

/- One call of gettok, as a relation between the state before and the
token produced plus the state after; the four constructors are the four
result branches of the source in order. -/
inductive GettokR : Option Char → List Char → Token → Option Char → List Char → Prop where
| identCase (lc : Option Char) (input : List Char) (c : Char) (mid : List Char)
    (s : List Char) (lc2 : Option Char) (out : List Char) :
    SkipR lc input (some c) mid → isalpha c = true →
    IdentAccR [c] mid s lc2 out →
    GettokR lc input (classify_ident (String.mk s)) lc2 out
| numCase (lc : Option Char) (input : List Char) (c : Char) (mid : List Char)
    (s : List Char) (lc2 : Option Char) (out : List Char) :
    SkipR lc input (some c) mid → isalpha c = false → (isdigit c || c == '.') = true →
    NumAccR [c] mid s lc2 out →
    GettokR lc input (Token.tok_num (String.mk s)) lc2 out
| eofCase (lc : Option Char) (input mid : List Char) :
    SkipR lc input none mid → GettokR lc input Token.tok_eof none mid
| symCase (lc : Option Char) (input : List Char) (c : Char) (mid : List Char) :
    SkipR lc input (some c) mid → isalpha c = false → (isdigit c || c == '.') = false →
    GettokR lc input (Token.sym c) (getchar mid).1 (getchar mid).2

/- A complete run of next_token calls from a start state, ending at the
end-of-input token: the token sequence the lexer emits. -/
inductive TokseqR : Option Char → List Char → List Token → Prop where
| last (lc : Option Char) (input : List Char) (lc2 : Option Char) (out : List Char) :
    GettokR lc input Token.tok_eof lc2 out → TokseqR lc input [Token.tok_eof]
| cons (lc : Option Char) (input : List Char) (t : Token) (lc2 : Option Char)
    (out : List Char) (ts : List Token) :
    GettokR lc input t lc2 out → t ≠ Token.tok_eof → TokseqR lc2 out ts →
    TokseqR lc input (t :: ts)

example : tokenize "1-2*3" =
    [Token.tok_num "1", Token.sym '-', Token.tok_num "2", Token.sym '*',
     Token.tok_num "3", Token.tok_eof] := rfl

example : (parse_expr 100 (mkInit (tokenize "1-2*3"))).1 =
    some (Expr.BinaryExpr '*'
      (Expr.BinaryExpr '-' (Expr.NumExpr "1") (Expr.NumExpr "2"))
      (Expr.NumExpr "3")) := rfl

example : (parse_definition 100 (mkInit (tokenize "def foo(x y) x+y"))).1 = none := rfl

example : (parse_definition 100 (mkInit (tokenize "def foo(x, y) x+y"))).1 =
    some (Expr.FunctionExpr
      (FuncPrototype.mk "foo" [Expr.VarExpr "x", Expr.VarExpr "y"])
      (Expr.BinaryExpr '+' (Expr.VarExpr "x") (Expr.VarExpr "y"))) := rfl

example : (parse_prototype 100 (mkInit (tokenize "foo(f(a))"))).1 =
    some (FuncPrototype.mk "foo" [Expr.CallExpr "f" [Expr.VarExpr "a"]]) := rfl

example : (parse_ident 100 (mkInit (tokenize "foo()"))).1 = some (Expr.CallExpr "foo" []) := rfl
example : (parse_ident 100 (mkInit (tokenize "foo()"))).2.curTok = Token.sym ')' := rfl
example : (parse_ident 100 (mkInit (tokenize "foo(1)"))).2.curTok = Token.tok_eof := rfl

example : (parse_expr 100 (mkInit (tokenize "foo(1, 2)"))).1 =
    some (Expr.CallExpr "foo" [Expr.NumExpr "1", Expr.NumExpr "2"]) := rfl
example : (parse_expr 100 (mkInit (tokenize "foo()"))).1 = some (Expr.CallExpr "foo" []) := rfl

example : (parse_definition 100 (mkInit (tokenize "def foo("))).1 = none := rfl

example : (parse_expr 100 (mkInit (tokenize "a/b"))).1 = some (Expr.VarExpr "a") := rfl
example : (parse_expr 100 (mkInit (tokenize "a/b"))).2.curTok = Token.sym '/' := rfl

example : tokenize "1.2.3" = [Token.tok_num "1.2.3", Token.tok_eof] := rfl

example : (parse_definition 100 (mkInit (tokenize "def foo() 1"))).1 = none := rfl
example : (parse_prototype 100 (mkInit (tokenize "foo()"))).1 = some (FuncPrototype.mk "foo" []) := rfl
example : (parse_prototype 100 (mkInit (tokenize "foo()"))).2.curTok = Token.sym ')' := rfl

theorem is_op_ne_lparen (c : Char) (h : is_op c = true) : c ≠ '(' := by
  intro hc
  subst hc
  exact absurd h (by decide)

theorem opsToks_eof_cons (ps : List (Char × Prim)) (hops : ∀ x ∈ ps, is_op x.1 = true) :
    ∃ r rts, opsToks ps ++ [Token.tok_eof] = r :: rts ∧ r ≠ Token.sym '(' := by
  cases ps with
  | nil => exact ⟨Token.tok_eof, [], rfl, by intro h; cases h⟩
  | cons hd tl =>
    refine ⟨Token.sym hd.1, hd.2.tok :: opsToks tl ++ [Token.tok_eof], ?_, ?_⟩
    · cases hd; simp [opsToks]
    · intro h
      have hop : is_op hd.1 = true := hops hd (List.mem_cons_self hd tl)
      exact is_op_ne_lparen hd.1 hop (by injection h)

theorem parse_primary_prim (p : Prim) (fuel : Nat) (is ns : String) (r : Token)
    (rts : List Token) (hr : r ≠ Token.sym '(') (hf : 2 ≤ fuel) :
    parse_primary fuel (mkSt (p.tok :: r :: rts) is ns)
      = (some p.expr, mkSt (r :: rts) (primIs p is) (primNs p ns)) := by
  obtain ⟨f, rfl⟩ : ∃ f, fuel = f + 2 := ⟨fuel - 2, by omega⟩
  cases p with
  | pnum v =>
    simp [Prim.tok, Prim.expr, primIs, primNs, mkSt, parse_primary, parse_number,
      get_next_token]
  | pvar nm =>
    simp [Prim.tok, Prim.expr, primIs, primNs, mkSt, parse_primary, parse_ident,
      get_next_token, hr]

theorem parse_binop_rhs_flat (ps : List (Char × Prim)) :
    ∀ (fuel : Nat) (cur : Expr) (is ns : String),
    (∀ x ∈ ps, is_op x.1 = true) →
    2 * ps.length + 4 ≤ fuel →
    (parse_binop_rhs fuel cur (mkSt (opsToks ps ++ [Token.tok_eof]) is ns)).1
      = some (leftAssocTree cur ps) := by
  induction ps with
  | nil =>
    intro fuel cur is ns _ hf
    obtain ⟨f, rfl⟩ : ∃ f, fuel = f + 1 := ⟨fuel - 1, by omega⟩
    simp [opsToks, leftAssocTree, mkSt, parse_binop_rhs, isOpTok]
  | cons hd tl ih =>
    intro fuel cur is ns hops hf
    obtain ⟨o, p⟩ := hd
    obtain ⟨f, rfl⟩ : ∃ f, fuel = f + 1 := ⟨fuel - 1, by omega⟩
    have hop : is_op o = true := hops (o, p) (List.mem_cons_self (o, p) tl)
    have hops2 : ∀ x ∈ tl, is_op x.1 = true := fun x hx => hops x (List.mem_cons_of_mem _ hx)
    obtain ⟨r, rts, hL, hr⟩ := opsToks_eof_cons tl hops2
    have hf2 : 2 ≤ f := by simp at hf; omega
    have hprim := parse_primary_prim p f is ns r rts hr hf2
    simp only [opsToks, List.cons_append, leftAssocTree]
    rw [hL]
    simp only [mkSt, parse_binop_rhs, isOpTok, hop, get_next_token, opChar,
      Bool.true_eq_false, if_false]
    simp only [mkSt] at hprim
    rw [hprim]
    have hrec := ih f (Expr.BinaryExpr o cur p.expr) (primIs p is) (primNs p ns)
      hops2 (by simp at hf ⊢; omega)
    rw [hL] at hrec
    exact hrec

/-- C1: for every input expression consisting of parenthesis-free primaries
joined by the operators '+', '-', '*', parse_expr builds the strictly
left-associative, precedence-flat tree ((p0 op1 p1) op2 p2) ...; in
particular "1-2*3" parses to BinaryOp('*', BinaryOp('-', 1, 2), 3) (see
the witness, which instantiates this theorem on the lexed form of
"1-2*3"). -/
theorem parse_expr_left_assoc_flat (p0 : Prim) (ps : List (Char × Prim)) (fuel : Nat)
    (hops : ∀ x ∈ ps, is_op x.1 = true) (hf : 2 * ps.length + 6 ≤ fuel) :
    (parse_expr fuel (mkInit (p0.tok :: (opsToks ps ++ [Token.tok_eof])))).1
      = some (leftAssocTree p0.expr ps) := by
  obtain ⟨f, rfl⟩ : ∃ f, fuel = f + 1 := ⟨fuel - 1, by omega⟩
  obtain ⟨r, rts, hL, hr⟩ := opsToks_eof_cons ps hops
  have hprim := parse_primary_prim p0 f "" "" r rts hr (by omega)
  simp only [mkInit]
  rw [hL]
  simp only [parse_expr]
  rw [hprim]
  have hrec := parse_binop_rhs_flat ps f p0.expr (primIs p0 "") (primNs p0 "") hops (by omega)
  rw [hL] at hrec
  exact hrec

/-- Witness for C1: the theorem applied to the token stream of "1-2*3",
which the lexer produces from that string. -/
theorem parse_expr_left_assoc_flat_witness :
    (parse_expr 100 (mkInit (tokenize "1-2*3"))).1
      = some (Expr.BinaryExpr '*'
          (Expr.BinaryExpr '-' (Expr.NumExpr "1") (Expr.NumExpr "2"))
          (Expr.NumExpr "3")) := by
  have h := parse_expr_left_assoc_flat (Prim.pnum "1")
    [('-', Prim.pnum "2"), ('*', Prim.pnum "3")] 100 (by decide) (by decide)
  exact h

/-- Counterexample to C2 as stated: the space-separated parameter list of
"def foo(x y) x+y" is rejected — after the first parameter the parser
expects a comma or the closing paren, finds the identifier y, and fails
with the sentinel. -/
theorem parse_definition_space_params_counterexample :
    (parse_definition 100 (mkInit (tokenize "def foo(x y) x+y"))).1 = none := rfl

/-- C2 (amended): prototype parameters must be comma-separated: the input
"def foo(x y) x+y" yields the failure sentinel, while the comma-separated
"def foo(x, y) x+y" parses to the FunctionDef with prototype foo(x, y)
and body x+y (the parameters are stored as VarExpr nodes, since the
prototype argument vector holds expressions). -/
theorem parse_definition_comma_params :
    (parse_definition 100 (mkInit (tokenize "def foo(x y) x+y"))).1 = none
    ∧ (parse_definition 100 (mkInit (tokenize "def foo(x, y) x+y"))).1
      = some (Expr.FunctionExpr
          (FuncPrototype.mk "foo" [Expr.VarExpr "x", Expr.VarExpr "y"])
          (Expr.BinaryExpr '+' (Expr.VarExpr "x") (Expr.VarExpr "y"))) := ⟨rfl, rfl⟩

/-- C3 is violated by the code: parse_prototype parses each parameter with
parse_ident, which accepts a call-expression shape, so "foo(f(a))" is
accepted and produces a prototype whose parameter list holds a call
expression rather than failing (the source marks the missing check with a
TODO at the argument loop). -/
theorem parse_prototype_accepts_call_param :
    (parse_prototype 100 (mkInit (tokenize "foo(f(a))"))).1
      = some (FuncPrototype.mk "foo" [Expr.CallExpr "f" [Expr.VarExpr "a"]]) := rfl

/-- C5: "foo(1, 2)" parses to a Call of foo with the arguments in order,
and "foo()" parses to a Call of foo with no arguments (number literals
are represented by their lexed literal string). -/
theorem parse_call_args_order :
    (parse_expr 100 (mkInit (tokenize "foo(1, 2)"))).1
      = some (Expr.CallExpr "foo" [Expr.NumExpr "1", Expr.NumExpr "2"])
    ∧ (parse_expr 100 (mkInit (tokenize "foo()"))).1 = some (Expr.CallExpr "foo" []) :=
  ⟨rfl, rfl⟩

/-- C6: the malformed input "def foo(" yields the failure sentinel (none),
and parse_definition propagates a failure sentinel from either of its
sub-parses (prototype or body) without building any node. -/
theorem parse_definition_failure_sentinel :
    (parse_definition 100 (mkInit (tokenize "def foo("))).1 = none
    ∧ (∀ (fuel : Nat) (s s2 : PState),
        parse_prototype fuel (get_next_token s) = (none, s2) →
        parse_definition (fuel + 1) s = (none, s2))
    ∧ (∀ (fuel : Nat) (s s2 s3 : PState) (proto : FuncPrototype),
        parse_prototype fuel (get_next_token s) = (some proto, s2) →
        parse_expr fuel s2 = (none, s3) →
        parse_definition (fuel + 1) s = (none, s3)) := by
  refine ⟨rfl, ?_, ?_⟩
  · intro fuel s s2 h
    simp only [parse_definition, h]
  · intro fuel s s2 s3 proto h h2
    simp only [parse_definition, h, h2]

/-- Witness for C6: the propagation part applied to the concrete failing
input "def foo(", whose prototype parse fails. -/
theorem parse_definition_failure_sentinel_witness :
    (parse_definition 100 (mkInit (tokenize "def foo("))).1 = none := by
  have h := parse_definition_failure_sentinel.2.1 99 (mkInit (tokenize "def foo("))
    ((parse_prototype 99 (get_next_token (mkInit (tokenize "def foo(")))).2) rfl
  exact congrArg Prod.fst h

/-- C7: the binary operators recognized by the expression parser are
exactly '+', '-' and '*'; when the current token is not one of them (for
example '/'), parse_binop_rhs returns just the accumulated left operand
with the state untouched, so "a/b" parses to the variable a with '/' left
as the current token and no BinaryOp with '/' is ever built. -/
theorem binop_ops_exactly_plus_minus_star :
    (∀ c : Char, is_op c = true ↔ (c = '+' ∨ c = '-' ∨ c = '*'))
    ∧ (∀ (fuel : Nat) (lhs : Expr) (s : PState), isOpTok s.curTok = false →
        parse_binop_rhs (fuel + 1) lhs s = (some lhs, s))
    ∧ is_op '/' = false
    ∧ (parse_expr 100 (mkInit (tokenize "a/b"))).1 = some (Expr.VarExpr "a")
    ∧ (parse_expr 100 (mkInit (tokenize "a/b"))).2.curTok = Token.sym '/' := by
  refine ⟨?_, ?_, rfl, rfl, rfl⟩
  · intro c
    simp [is_op, or_assoc]
  · intro fuel lhs s h
    simp [parse_binop_rhs, h]

/-- Witness for C7: the non-operator return applied at the concrete state
whose current token is '/'. -/
theorem binop_ops_exactly_plus_minus_star_witness :
    parse_binop_rhs 1 (Expr.NumExpr "1") ⟨Token.sym '/', "", "", []⟩
      = (some (Expr.NumExpr "1"), ⟨Token.sym '/', "", "", []⟩) :=
  binop_ops_exactly_plus_minus_star.2.1 0 (Expr.NumExpr "1")
    ⟨Token.sym '/', "", "", []⟩ (by decide)

/-- C10: whenever the token right after the prototype opening paren is the
closing paren, parse_prototype returns a zero-parameter prototype without
consuming that closing paren — it remains the current token; hence the
body parse of "def foo() 1" starts at the closing paren and the
definition fails. -/
theorem parse_prototype_empty_params_keeps_rparen :
    (∀ (name : String) (rts : List Token) (fuel : Nat),
      parse_prototype (fuel + 1)
          (mkInit (Token.tok_ident name :: Token.sym '(' :: Token.sym ')' :: rts))
        = (some (FuncPrototype.mk name []), ⟨Token.sym ')', name, "", rts⟩))
    ∧ (parse_definition 100 (mkInit (tokenize "def foo() 1"))).1 = none := by
  refine ⟨?_, rfl⟩
  intro name rts fuel
  simp [mkInit, mkSt, parse_prototype, get_next_token]

theorem space_not_numchar (c : Char) (h : isspace c = true) :
    (isdigit c || c == '.') = false := by
  simp only [isspace, Bool.or_eq_true, beq_iff_eq, or_assoc] at h
  rcases h with h | h | h | h | h | h <;> subst h <;> rfl

theorem numchar_not_space (c : Char) (h : (isdigit c || c == '.') = true) :
    isspace c = false := by
  cases hs : isspace c with
  | false => rfl
  | true =>
    rw [space_not_numchar c hs] at h
    exact absurd h (by decide)

theorem numchar_not_alpha (c : Char) (h : (isdigit c || c == '.') = true) :
    isalpha c = false := by
  cases ha : isalpha c with
  | false => rfl
  | true =>
    rcases (Bool.or_eq_true _ _).mp h with hd | hdot
    · simp only [isdigit, Bool.and_eq_true, decide_eq_true_eq] at hd
      simp only [isalpha, Bool.or_eq_true, Bool.and_eq_true, decide_eq_true_eq] at ha
      omega
    · rw [beq_iff_eq] at hdot
      subst hdot
      exact absurd ha (by decide)

theorem skipSpaces_not_space (c : Char) (input : List Char) (h : isspace c = false) :
    skipSpaces (some c) input = (some c, input) := by
  cases input <;> simp [skipSpaces, h]

theorem lexNum_takeWhile (input : List Char) :
    ∀ acc : List Char,
    (lexNum acc input).1 = acc ++ input.takeWhile (fun d => isdigit d || d == '.') := by
  induction input with
  | nil => intro acc; simp [lexNum]
  | cons c rest ih =>
    intro acc
    cases h : (isdigit c || c == '.') with
    | true => simp [lexNum, h, List.takeWhile_cons, ih]
    | false => simp [lexNum, h, List.takeWhile_cons]

/-- C8: when the current character is a digit or a decimal point the lexer
accumulates the maximal following run of digits and decimal points into
one literal and emits a single number token — no error, even with several
decimal points: "1.2.3" lexes to exactly one number token. -/
theorem lexer_number_maximal_run :
    (∀ (c : Char) (input : List Char), (isdigit c || c == '.') = true →
      (gettok (some c) input).1
        = Token.tok_num (String.mk (c :: input.takeWhile (fun d => isdigit d || d == '.'))))
    ∧ tokenize "1.2.3" = [Token.tok_num "1.2.3", Token.tok_eof] := by
  refine ⟨?_, rfl⟩
  intro c input h
  have hs := skipSpaces_not_space c input (numchar_not_space c h)
  have ha := numchar_not_alpha c h
  simp only [gettok]
  rw [hs]
  simp only [ha, h, if_false, if_true, Bool.false_eq_true]
  simp [lexNum_takeWhile input [c]]

/-- Witness for C8: the maximal-run property applied to the character '1'
followed by the stream ".2.3". -/
theorem lexer_number_maximal_run_witness :
    (gettok (some '1') ".2.3".data).1
      = Token.tok_num (String.mk
          ('1' :: ".2.3".data.takeWhile (fun d => isdigit d || d == '.'))) :=
  lexer_number_maximal_run.1 '1' ".2.3".data (by decide)

theorem skipR_det {lc : Option Char} {input : List Char} {a a2 : Option Char}
    {b b2 : List Char} (h1 : SkipR lc input a b) (h2 : SkipR lc input a2 b2) :
    a = a2 ∧ b = b2 := by
  induction h1 generalizing a2 b2 with
  | stop c input hns =>
    cases h2 with
    | stop => exact ⟨rfl, rfl⟩
    | stepCons _ _ _ _ _ hs _ => rw [hns] at hs; exact absurd hs (by decide)
    | stepNil _ hs => rw [hns] at hs; exact absurd hs (by decide)
  | atEof input =>
    cases h2 with
    | atEof => exact ⟨rfl, rfl⟩
  | stepCons c d rest lc out hs _ ih =>
    cases h2 with
    | stop _ _ hns => rw [hns] at hs; exact absurd hs (by decide)
    | stepCons _ _ _ _ _ _ h2x => exact ih h2x
  | stepNil c hs =>
    cases h2 with
    | stop _ _ hns => rw [hns] at hs; exact absurd hs (by decide)
    | stepNil => exact ⟨rfl, rfl⟩

theorem identAccR_det {acc input : List Char} {r r2 : List Char} {l l2 : Option Char}
    {f f2 : List Char} (h1 : IdentAccR acc input r l f) (h2 : IdentAccR acc input r2 l2 f2) :
    r = r2 ∧ l = l2 ∧ f = f2 := by
  induction h1 generalizing r2 l2 f2 with
  | atEof acc =>
    cases h2 with
    | atEof => exact ⟨rfl, rfl, rfl⟩
  | more acc c rest fin res lc hy _ ih =>
    cases h2 with
    | more _ _ _ _ _ _ _ h2x => exact ih h2x
    | stop _ _ _ hn => rw [hy] at hn; exact absurd hn (by decide)
  | stop acc c rest hn =>
    cases h2 with
    | more _ _ _ _ _ _ hy _ => rw [hy] at hn; exact absurd hn (by decide)
    | stop => exact ⟨rfl, rfl, rfl⟩

theorem numAccR_det {acc input : List Char} {r r2 : List Char} {l l2 : Option Char}
    {f f2 : List Char} (h1 : NumAccR acc input r l f) (h2 : NumAccR acc input r2 l2 f2) :
    r = r2 ∧ l = l2 ∧ f = f2 := by
  induction h1 generalizing r2 l2 f2 with
  | atEof acc =>
    cases h2 with
    | atEof => exact ⟨rfl, rfl, rfl⟩
  | more acc c rest fin res lc hy _ ih =>
    cases h2 with
    | more _ _ _ _ _ _ _ h2x => exact ih h2x
    | stop _ _ _ hn => rw [hy] at hn; exact absurd hn (by decide)
  | stop acc c rest hn =>
    cases h2 with
    | more _ _ _ _ _ _ hy _ => rw [hy] at hn; exact absurd hn (by decide)
    | stop => exact ⟨rfl, rfl, rfl⟩

theorem gettokR_det {lc : Option Char} {input : List Char} {t t2 : Token}
    {a a2 : Option Char} {b b2 : List Char}
    (h1 : GettokR lc input t a b) (h2 : GettokR lc input t2 a2 b2) :
    t = t2 ∧ a = a2 ∧ b = b2 := by
  cases h1 with
  | identCase c mid s lc2 out hsk hal hacc =>
    cases h2 with
    | identCase c2 mid2 s2 lc22 out2 hsk2 hal2 hacc2 =>
      obtain ⟨hc, hm⟩ := skipR_det hsk hsk2
      obtain rfl : c = c2 := Option.some.inj hc
      subst hm
      obtain ⟨rfl, rfl, rfl⟩ := identAccR_det hacc hacc2
      exact ⟨rfl, rfl, rfl⟩
    | numCase c2 mid2 s2 lc22 out2 hsk2 hal2 hnum2 hacc2 =>
      obtain ⟨hc, hm⟩ := skipR_det hsk hsk2
      obtain rfl : c = c2 := Option.some.inj hc
      rw [hal] at hal2
      exact absurd hal2 (by decide)
    | eofCase mid2 hsk2 =>
      obtain ⟨hc, _⟩ := skipR_det hsk hsk2
      exact Option.noConfusion hc
    | symCase c2 mid2 hsk2 hal2 hnum2 =>
      obtain ⟨hc, hm⟩ := skipR_det hsk hsk2
      obtain rfl : c = c2 := Option.some.inj hc
      rw [hal] at hal2
      exact absurd hal2 (by decide)
  | numCase c mid s lc2 out hsk hal hnum hacc =>
    cases h2 with
    | identCase c2 mid2 s2 lc22 out2 hsk2 hal2 hacc2 =>
      obtain ⟨hc, hm⟩ := skipR_det hsk hsk2
      obtain rfl : c = c2 := Option.some.inj hc
      rw [hal] at hal2
      exact absurd hal2 (by decide)
    | numCase c2 mid2 s2 lc22 out2 hsk2 hal2 hnum2 hacc2 =>
      obtain ⟨hc, hm⟩ := skipR_det hsk hsk2
      obtain rfl : c = c2 := Option.some.inj hc
      subst hm
      obtain ⟨rfl, rfl, rfl⟩ := numAccR_det hacc hacc2
      exact ⟨rfl, rfl, rfl⟩
    | eofCase mid2 hsk2 =>
      obtain ⟨hc, _⟩ := skipR_det hsk hsk2
      exact Option.noConfusion hc
    | symCase c2 mid2 hsk2 hal2 hnum2 =>
      obtain ⟨hc, hm⟩ := skipR_det hsk hsk2
      obtain rfl : c = c2 := Option.some.inj hc
      rw [hnum] at hnum2
      exact absurd hnum2 (by decide)
  | eofCase mid hsk =>
    cases h2 with
    | identCase c2 mid2 s2 lc22 out2 hsk2 hal2 hacc2 =>
      obtain ⟨hc, _⟩ := skipR_det hsk hsk2
      exact Option.noConfusion hc
    | numCase c2 mid2 s2 lc22 out2 hsk2 hal2 hnum2 hacc2 =>
      obtain ⟨hc, _⟩ := skipR_det hsk hsk2
      exact Option.noConfusion hc
    | eofCase mid2 hsk2 =>
      obtain ⟨_, hm⟩ := skipR_det hsk hsk2
      subst hm
      exact ⟨rfl, rfl, rfl⟩
    | symCase c2 mid2 hsk2 hal2 hnum2 =>
      obtain ⟨hc, _⟩ := skipR_det hsk hsk2
      exact Option.noConfusion hc
  | symCase c mid hsk hal hnum =>
    cases h2 with
    | identCase c2 mid2 s2 lc22 out2 hsk2 hal2 hacc2 =>
      obtain ⟨hc, hm⟩ := skipR_det hsk hsk2
      obtain rfl : c = c2 := Option.some.inj hc
      rw [hal] at hal2
      exact absurd hal2 (by decide)
    | numCase c2 mid2 s2 lc22 out2 hsk2 hal2 hnum2 hacc2 =>
      obtain ⟨hc, hm⟩ := skipR_det hsk hsk2
      obtain rfl : c = c2 := Option.some.inj hc
      rw [hnum] at hnum2
      exact absurd hnum2 (by decide)
    | eofCase mid2 hsk2 =>
      obtain ⟨hc, _⟩ := skipR_det hsk hsk2
      exact Option.noConfusion hc
    | symCase c2 mid2 hsk2 hal2 hnum2 =>
      obtain ⟨hc, hm⟩ := skipR_det hsk hsk2
      obtain rfl : c = c2 := Option.some.inj hc
      subst hm
      exact ⟨rfl, rfl, rfl⟩

/-- C9: the lexer is deterministic — from the same buffered look-ahead
character and the same remaining character stream, any two complete runs
of next_token produce identical token sequences (same kinds, same
payloads). -/
theorem lexer_deterministic (lc : Option Char) (input : List Char)
    (ts1 ts2 : List Token) (h1 : TokseqR lc input ts1) (h2 : TokseqR lc input ts2) :
    ts1 = ts2 := by
  induction h1 generalizing ts2 with
  | last lc input lc2 out hg =>
    cases h2 with
    | last lcb inputb lc22 out2 hg2 => rfl
    | cons lcb inputb t2 lc22 out2 tl2 hg2 hne2 hts2 =>
      obtain ⟨ht, _, _⟩ := gettokR_det hg hg2
      exact absurd ht.symm hne2
  | cons lc input t lc2 out tl hg hne hts ih =>
    cases h2 with
    | last lcb inputb lc22 out2 hg2 =>
      obtain ⟨ht, _, _⟩ := gettokR_det hg hg2
      exact absurd ht hne
    | cons lcb inputb t2 lc22 out2 tl2 hg2 hne2 hts2 =>
      obtain ⟨rfl, rfl, rfl⟩ := gettokR_det hg hg2
      rw [ih tl2 hts2]

/- A concrete derivation: lexing the one-character stream "1" from the
initial buffered space yields the number token "1" then end-of-input. -/
theorem tokseqR_one : TokseqR (some ' ') ['1'] [Token.tok_num "1", Token.tok_eof] := by
  have hg : GettokR (some ' ') ['1'] (Token.tok_num (String.mk ['1'])) none [] := by
    refine GettokR.numCase (some ' ') ['1'] '1' [] ['1'] none [] ?_ (by decide) (by decide) ?_
    · exact SkipR.stepCons ' ' '1' [] (some '1') [] (by decide)
        (SkipR.stop '1' [] (by decide))
    · exact NumAccR.atEof ['1']
  refine TokseqR.cons (some ' ') ['1'] (Token.tok_num "1") none [] [Token.tok_eof]
    hg (by decide) ?_
  exact TokseqR.last none [] none []
    (GettokR.eofCase none [] [] (SkipR.atEof []))

/-- Witness for C9: determinism applied to two derivations of the token
sequence of the stream "1". -/
theorem lexer_deterministic_witness :
    [Token.tok_num "1", Token.tok_eof] = [Token.tok_num "1", Token.tok_eof] :=
  lexer_deterministic (some ' ') ['1'] _ _ tokseqR_one tokseqR_one
